import Mathlib

/-!
# Verification of the nested interrupt dispatcher

Shallow embedding of `src/priority_queue.py`, `src/interrupt.py` and
`src/interrupt_handler.py`.

Modelling conventions:
* Python's `heapq` (standard library, not repository code) is modelled by its
  documented contract: the queue state is the multiset of pushed entries
  `(-priority, counter, item)`, `heap[0]` / `heappop` select the least entry
  under lexicographic tuple order.  Entry counters are pairwise distinct, so
  the third tuple component is never compared.
* Python object identity of `Interrupt` objects (used by `in` / `list.remove`
  on the active stack, since the class defines no `__eq__`) is modelled by a
  fresh `iid` field allocated from a system-wide counter at each construction.
* Handler callbacks are arbitrary user code; only their identity matters to
  the dispatcher, so a callback is an opaque `Nat` id, and the outcome of
  running one (normal return or raised exception) is an explicit parameter.
* Handler threads run outside the critical section; a run is modelled as the
  later `SysOp.finish` step that the spawned runner performs.  Everything the
  dispatcher does inside its re-entrant lock is sequentialized, which is
  faithful because all dispatcher state is touched only under that lock.
-/

namespace NestedInterrupts

/-- One heap entry of `PriorityQueue` (`src/priority_queue.py`): the tuple
`(-priority, self._entry_counter, item)` passed to `heapq.heappush`. -/
structure PQEntry (α : Type) where
  negPriority : Int
  counter : Nat
  item : α
deriving DecidableEq

/-- Strict lexicographic order on the first two tuple components; with
pairwise distinct counters this is exactly Python's tuple comparison on the
heap entries (the `item` component is never reached). -/
def entryLt {α : Type} (a b : PQEntry α) : Prop :=
  a.negPriority < b.negPriority ∨
    (a.negPriority = b.negPriority ∧ a.counter < b.counter)

instance {α : Type} (a b : PQEntry α) : Decidable (entryLt a b) := by
  unfold entryLt; exact inferInstance

/-- Least entry of a list under `entryLt` (the root `heap[0]` of the heap
maintained by `heapq.heappush`/`heappop`); `none` exactly on the empty
heap. -/
def selMin {α : Type} : List (PQEntry α) → Option (PQEntry α)
  | [] => none
  | e :: es =>
    match selMin es with
    | none => some e
    | some m => if entryLt m e then some m else some e

/-- State of `PriorityQueue.__init__`: the heap contents (as the multiset of
entries, in insertion order) and `_entry_counter`. -/
structure PriorityQueue (α : Type) where
  entries : List (PQEntry α)
  entry_counter : Nat
deriving DecidableEq

/-- `PriorityQueue.push`: `heappush(self._queue, (-priority, self._entry_counter, item))`
followed by `self._entry_counter += 1`. -/
def PriorityQueue.push {α : Type} (q : PriorityQueue α) (item : α) (priority : Int) :
    PriorityQueue α :=
  { entries := q.entries ++ [⟨-priority, q.entry_counter, item⟩],
    entry_counter := q.entry_counter + 1 }

/-- The least heap entry, `self._queue[0]`. -/
def PriorityQueue.peekEntry {α : Type} (q : PriorityQueue α) : Option (PQEntry α) :=
  selMin q.entries

/-- `PriorityQueue.peek`: item of `self._queue[0]`, or `None` when empty. -/
def PriorityQueue.peek {α : Type} (q : PriorityQueue α) : Option α :=
  (selMin q.entries).map (fun e => e.item)

/-- Queue state after `PriorityQueue.pop` (`heappop` removes the least
entry; on an empty queue `pop` returns `None` and the state is unchanged). -/
def PriorityQueue.popQ {α : Type} [DecidableEq α] (q : PriorityQueue α) : PriorityQueue α :=
  match selMin q.entries with
  | none => q
  | some m => { q with entries := q.entries.erase m }

/-- `PriorityQueue.pop`: the returned item together with the new state. -/
def PriorityQueue.pop {α : Type} [DecidableEq α] (q : PriorityQueue α) :
    Option α × PriorityQueue α :=
  ((selMin q.entries).map (fun e => e.item), q.popQ)

/-- `PriorityQueue.is_empty`. -/
def PriorityQueue.is_empty {α : Type} (q : PriorityQueue α) : Bool :=
  q.entries.isEmpty

/-- `PriorityQueue.__len__`. -/
def PriorityQueue.len {α : Type} (q : PriorityQueue α) : Nat :=
  q.entries.length

/-- The `Interrupt` class of `src/interrupt.py`.  Used both for registered
definitions (stored in `InterruptSystem.interrupts`) and for triggered
instances.  `iid` models Python object identity (see module docstring). -/
structure Interrupt where
  name : String
  priority : Int
  handler : Option Nat
  data : Option Nat
  is_active : Bool
  is_masked : Bool
  iid : Nat
deriving DecidableEq

/-- The `InterruptHandler` class of `src/interrupt_handler.py`: a name plus an
optional callback (callbacks are opaque `Nat` ids). -/
structure InterruptHandler where
  interrupt_name : String
  callback : Option Nat
deriving DecidableEq

/-- Outcome of running a user callback: normal return or raised exception. -/
inductive CallbackOutcome where
  | ok
  | raises
deriving DecidableEq

/-- `InterruptHandler.handle`: returns `True` on successful callback run,
`False` when the callback raised (the exception is caught inside `handle`)
or when no callback is set. -/
def InterruptHandler.handle (h : InterruptHandler) (out : CallbackOutcome) : Bool :=
  match h.callback with
  | none => false
  | some _ =>
    match out with
    | CallbackOutcome.ok => true
    | CallbackOutcome.raises => false

/-- Lookup in a Python dict modelled as an association list (first match). -/
def dictGet {α : Type} (d : List (String × α)) (k : String) : Option α :=
  match d.find? (fun p => p.1 == k) with
  | some p => some p.2
  | none => none

/-- Write to a Python dict modelled as an association list: replace the
binding in place if the key is present, append otherwise. -/
def dictSet {α : Type} (d : List (String × α)) (k : String) (v : α) :
    List (String × α) :=
  if (d.find? (fun p => p.1 == k)).isSome then
    d.map (fun p => if p.1 == k then (k, v) else p)
  else
    d ++ [(k, v)]

/-- State of `InterruptSystem` (`src/interrupt_handler.py`): registry,
handlers, pending queue, active stack, global mask and the
`threading.Event` completion flag.  `next_iid` is the object-identity
allocator (see module docstring). -/
structure InterruptSystem where
  interrupts : List (String × Interrupt)
  handlers : List (String × InterruptHandler)
  pending_queue : PriorityQueue Interrupt
  active_stack : List Interrupt
  global_mask : Bool
  processing_event : Bool
  next_iid : Nat
deriving DecidableEq

/-- `InterruptSystem.__init__`. -/
def initSystem : InterruptSystem :=
  { interrupts := [], handlers := [], pending_queue := ⟨[], 0⟩,
    active_stack := [], global_mask := false, processing_event := false,
    next_iid := 0 }

/-- `InterruptSystem.register_handler`: build an `InterruptHandler` and store
it under the name, overwriting any previous one; returns the handler. -/
def register_handler (s : InterruptSystem) (interrupt_name : String) (callback : Nat) :
    InterruptSystem × InterruptHandler :=
  let h : InterruptHandler := ⟨interrupt_name, some callback⟩
  ({ s with handlers := dictSet s.handlers interrupt_name h }, h)

/-- `InterruptSystem.register_interrupt`: update the priority in place if the
name is known (and return the existing definition, without touching the
handlers registry); otherwise create and store a fresh definition and, when a
handler argument is given, also register it via `register_handler`. -/
def register_interrupt (s : InterruptSystem) (name : String) (priority : Int)
    (handler : Option Nat) : InterruptSystem × Interrupt :=
  match dictGet s.interrupts name with
  | some intr =>
    let intr' : Interrupt := { intr with priority := priority }
    ({ s with interrupts := dictSet s.interrupts name intr' }, intr')
  | none =>
    let intr : Interrupt :=
      ⟨name, priority, none, none, false, false, s.next_iid⟩
    let s1 : InterruptSystem :=
      { s with interrupts := dictSet s.interrupts name intr,
               next_iid := s.next_iid + 1 }
    match handler with
    | some cb => ((register_handler s1 name cb).1, intr)
    | none => (s1, intr)

/-- Scheduling events observable from one dispatcher operation, in order:
`observed b` is the emptiness check at the entry of `_process_pending`
(`b` = queue observed empty), `admitted i` the move of `i` from the pending
queue to the active stack, `finished i` the removal of `i` from the active
stack in `_finish_interrupt`, and `spawned h i` the start of a handler
thread for `i` with handler object `h`. -/
inductive SchedEv where
  | observed (empty : Bool)
  | admitted (i : Interrupt)
  | finished (i : Interrupt)
  | spawned (h : InterruptHandler) (i : Interrupt)
deriving DecidableEq

/-- `list.remove` by object identity on the active stack (first element with
the given `iid`; identical to the list if no element matches, covering the
`if interrupt in self.active_stack` guard). -/
def removeById : List Interrupt → Nat → List Interrupt
  | [], _ => []
  | x :: xs, iid => if x.iid = iid then xs else x :: removeById xs iid

/-- The non-recursive part of `_finish_interrupt`: remove the instance from
the active stack by identity (`self.active_stack.remove(interrupt)` guarded
by membership).  The subsequent `_process_pending` call is appended by the
callers. -/
def finishCore (s : InterruptSystem) (intr : Interrupt) : InterruptSystem :=
  { s with active_stack := removeById s.active_stack intr.iid }

/-- `_process_pending`, fueled (the fuel is an upper bound on the recursion
depth through `_finish_interrupt`, which is reached only when an admitted
instance has no registered handler; each round removes one pending entry, so
`pending length + 1` fuel always suffices — see
`process_pending_aux_fuel_irrel`).  The `is_empty` check of the source is
rendered as the match on `peekEntry`, which is `none` exactly on the empty
queue.  Returns the new state and the trace of scheduling events. -/
def process_pending_aux : Nat → InterruptSystem → InterruptSystem × List SchedEv
  | 0, s => (s, [])
  | fuel + 1, s =>
    match s.pending_queue.peekEntry with
    | none =>
      -- queue empty: set the completion event and return
      ({ s with processing_event := true }, [SchedEv.observed true])
    | some m =>
      let pending := m.item
      let blocked : Bool :=
        match s.active_stack.getLast? with
        | some current => decide (¬ pending.priority > current.priority)
        | none => false
      if blocked then
        -- lower or equal priority than the stack top: leave it queued
        (s, [SchedEv.observed false])
      else
        -- `_handle_interrupt pending`: pop, mark active, push on the stack
        let p' : Interrupt := { pending with is_active := true }
        let s1 : InterruptSystem :=
          { s with pending_queue := s.pending_queue.popQ,
                   active_stack := s.active_stack ++ [p'] }
        match dictGet s1.handlers p'.name with
        | some h =>
          -- spawn the handler thread and return
          (s1, [SchedEv.observed false, SchedEv.admitted p', SchedEv.spawned h p'])
        | none =>
          -- no handler: `_finish_interrupt p'` runs synchronously and
          -- recurses into `_process_pending`
          let p2 : Interrupt := { p' with is_active := false }
          let s2 : InterruptSystem := finishCore s1 p'
          let r := process_pending_aux fuel s2
          (r.1, SchedEv.observed false :: SchedEv.admitted p' ::
            SchedEv.finished p2 :: r.2)

/-- `_process_pending` with always-sufficient fuel. -/
def process_pending (s : InterruptSystem) : InterruptSystem × List SchedEv :=
  process_pending_aux (s.pending_queue.len + 1) s

/-- The state recursed on in the no-handler branch. -/
def nohandlerNext (s : InterruptSystem) (m : PQEntry Interrupt) : InterruptSystem :=
  finishCore
    { s with pending_queue := s.pending_queue.popQ,
             active_stack := s.active_stack ++ [{ m.item with is_active := true }] }
    { m.item with is_active := true }

/-- `_finish_interrupt` as invoked by a handler runner (or by
`_handle_interrupt` when no handler exists): remove the instance from the
active stack by identity, mark it inactive, then run `_process_pending`. -/
def finish_interrupt (s : InterruptSystem) (intr : Interrupt) :
    InterruptSystem × List SchedEv :=
  let s1 := finishCore s intr
  let r := process_pending s1
  (r.1, SchedEv.finished { intr with is_active := false } :: r.2)

/-- `_execute_handler`: run the handler (its boolean result is discarded and
any exception is caught), then *always* call `_finish_interrupt` — the
`finally` block of the source. -/
def execute_handler (s : InterruptSystem) (h : InterruptHandler)
    (intr : Interrupt) (out : CallbackOutcome) : InterruptSystem × List SchedEv :=
  let _handled := h.handle out
  finish_interrupt s intr

/-- `InterruptSystem.trigger`: reject (returning `False`, state untouched)
when globally masked, unknown, or individually masked — in that order;
otherwise build a fresh instance copying name/priority/handler from the
definition, push it, clear the completion event, run one admission step and
return `True`. -/
def trigger (s : InterruptSystem) (interrupt_name : String) (data : Option Nat) :
    InterruptSystem × Bool × List SchedEv :=
  if s.global_mask then (s, false, [])
  else
    match dictGet s.interrupts interrupt_name with
    | none => (s, false, [])
    | some intr =>
      if intr.is_masked then (s, false, [])
      else
        let inst : Interrupt :=
          ⟨intr.name, intr.priority, intr.handler, data, false, false, s.next_iid⟩
        let s1 : InterruptSystem :=
          { s with pending_queue := s.pending_queue.push inst inst.priority,
                   next_iid := s.next_iid + 1,
                   processing_event := false }
        let r := process_pending s1
        (r.1, true, r.2)

/-- `InterruptSystem.mask_interrupt`: set/clear the per-definition mask;
`False` only when the name is unknown. -/
def mask_interrupt (s : InterruptSystem) (interrupt_name : String) (masked : Bool) :
    InterruptSystem × Bool :=
  match dictGet s.interrupts interrupt_name with
  | none => (s, false)
  | some intr =>
    ({ s with interrupts :=
        dictSet s.interrupts interrupt_name { intr with is_masked := masked } },
     true)

/-- `InterruptSystem.mask_all`. -/
def mask_all (s : InterruptSystem) (masked : Bool) : InterruptSystem :=
  { s with global_mask := masked }

/-- `InterruptSystem.wait_for_completion`: `Event.wait` returns the flag's
value; on timeout with the flag unset it returns `False`.  In a quiescent
system (no concurrent dispatcher activity) the result is just the current
flag. -/
def wait_for_completion (s : InterruptSystem) : Bool :=
  s.processing_event

/-- External operations on the dispatcher.  `finish iid out` is the
completion report of the handler runner spawned for the active-stack
instance with identity `iid` (runners exist exactly for spawned, not yet
finished instances), with callback outcome `out`. -/
inductive SysOp where
  | register (name : String) (priority : Int) (handler : Option Nat)
  | regHandler (name : String) (cb : Nat)
  | trigger (name : String) (data : Option Nat)
  | maskInterrupt (name : String) (m : Bool)
  | maskAll (m : Bool)
  | finish (iid : Nat) (out : CallbackOutcome)
deriving DecidableEq

/-- The active-stack instance with identity `iid`, if present. -/
def findActive (s : InterruptSystem) (iid : Nat) : Option Interrupt :=
  s.active_stack.find? (fun i => i.iid == iid)

/-- One external operation applied to a system state, with its event trace. -/
def applyOp (s : InterruptSystem) (op : SysOp) : InterruptSystem × List SchedEv :=
  match op with
  | SysOp.register n p h => ((register_interrupt s n p h).1, [])
  | SysOp.regHandler n cb => ((register_handler s n cb).1, [])
  | SysOp.trigger n d =>
    let r := trigger s n d
    (r.1, r.2.2)
  | SysOp.maskInterrupt n m => ((mask_interrupt s n m).1, [])
  | SysOp.maskAll m => (mask_all s m, [])
  | SysOp.finish iid out =>
    match findActive s iid with
    | some intr =>
      let h := (dictGet s.handlers intr.name).getD ⟨intr.name, none⟩
      execute_handler s h intr out
    | none => (s, [])

/-- One step of `runOps`: apply the operation and append its event trace. -/
def runStep (acc : InterruptSystem × List SchedEv) (op : SysOp) :
    InterruptSystem × List SchedEv :=
  let r := applyOp acc.1 op
  (r.1, acc.2 ++ r.2)

/-- Run a list of external operations from the fresh system, accumulating the
event trace. -/
def runOps (ops : List SysOp) : InterruptSystem × List SchedEv :=
  ops.foldl runStep (initSystem, [])

/-- Operations that are not `trigger` and not a handler completion: on a
never-triggered system only these can occur. -/
def passiveOp : SysOp → Bool
  | SysOp.trigger _ _ => false
  | SysOp.finish _ _ => false
  | _ => true

/-- The last emptiness observation (entry check of `_process_pending`)
recorded in an event trace, if any. -/
def lastObs : List SchedEv → Option Bool
  | [] => none
  | e :: rest =>
    match lastObs rest with
    | some b => some b
    | none =>
      match e with
      | SchedEv.observed b => some b
      | _ => none

/-- Number of `admitted` events in a trace. -/
def admCount (T : List SchedEv) : Nat :=
  T.countP (fun e => match e with | SchedEv.admitted _ => true | _ => false)

/-- Number of `finished` events in a trace. -/
def finCount (T : List SchedEv) : Nat :=
  T.countP (fun e => match e with | SchedEv.finished _ => true | _ => false)

/-- Operations of the standalone `PriorityQueue` interface. -/
inductive PQOp (α : Type) where
  | push (item : α) (priority : Int)
  | pop
deriving DecidableEq

/-- Effect of one `PriorityQueue` operation on the queue state. -/
def applyPQOp {α : Type} [DecidableEq α] (q : PriorityQueue α) :
    PQOp α → PriorityQueue α
  | PQOp.push item p => q.push item p
  | PQOp.pop => q.popQ

/-- Run a sequence of queue operations from the fresh queue. -/
def runPQ {α : Type} [DecidableEq α] (ops : List (PQOp α)) : PriorityQueue α :=
  ops.foldl applyPQOp ⟨[], 0⟩

/-- Queue invariant: every stored sequence number is below the allocation
counter, and sequence numbers are pairwise distinct. -/
def pqInv {α : Type} (q : PriorityQueue α) : Prop :=
  (∀ e ∈ q.entries, e.counter < q.entry_counter) ∧
    q.entries.Pairwise (fun a b => a.counter ≠ b.counter)

/-- Completion-signal invariant tying a system state to the event trace that
produced it: the `threading.Event` flag is set exactly when the last
emptiness observation saw an empty queue, and a set flag certifies the queue
really is empty. -/
def SysInv (s : InterruptSystem) (T : List SchedEv) : Prop :=
  (s.processing_event = true ↔ lastObs T = some true) ∧
    (s.processing_event = true → s.pending_queue.is_empty = true)

/-! ## Helper lemmas: the heap's least entry -/

theorem selMin_eq_none {α : Type} {l : List (PQEntry α)} :
    selMin l = none ↔ l = [] := by
  cases l with
  | nil => simp [selMin]
  | cons e es =>
    cases h : selMin es with
    | none => simp [selMin, h]
    | some m =>
      simp only [selMin, h]
      split <;> simp

theorem selMin_mem {α : Type} {l : List (PQEntry α)} {m : PQEntry α}
    (h : selMin l = some m) : m ∈ l := by
  induction l generalizing m with
  | nil => simp [selMin] at h
  | cons e es ih =>
    simp only [selMin] at h
    cases h' : selMin es with
    | none =>
      rw [h'] at h
      injection h with h
      subst h
      exact List.mem_cons_self e es
    | some m' =>
      simp only [h'] at h
      by_cases hlt : entryLt m' e
      · rw [if_pos hlt] at h
        injection h with h
        subst h
        exact List.mem_cons_of_mem e (ih h')
      · rw [if_neg hlt] at h
        injection h with h
        subst h
        exact List.mem_cons_self e es

theorem selMin_not_lt {α : Type} {l : List (PQEntry α)} {m : PQEntry α}
    (h : selMin l = some m) : ∀ e ∈ l, ¬ entryLt e m := by
  induction l generalizing m with
  | nil => simp [selMin] at h
  | cons a as ih =>
    intro e he
    simp only [selMin] at h
    cases h' : selMin as with
    | none =>
      rw [h'] at h
      injection h with h
      subst h
      rw [selMin_eq_none.mp h'] at he
      simp at he
      subst he
      unfold entryLt
      omega
    | some m' =>
      simp only [h'] at h
      by_cases hlt : entryLt m' a
      · rw [if_pos hlt] at h
        injection h with h
        subst h
        rcases List.mem_cons.mp he with rfl | hmem
        · unfold entryLt at hlt ⊢
          omega
        · exact ih h' _ hmem
      · rw [if_neg hlt] at h
        injection h with h
        subst h
        rcases List.mem_cons.mp he with rfl | hmem
        · unfold entryLt
          omega
        · have h2 := ih h' _ hmem
          unfold entryLt at hlt h2 ⊢
          omega

theorem selMin_len_pos {α : Type} {q : PriorityQueue α} {m : PQEntry α}
    (h : selMin q.entries = some m) : 1 ≤ q.len := by
  have := selMin_mem h
  have : q.entries ≠ [] := List.ne_nil_of_mem this
  have := List.length_pos.mpr this
  unfold PriorityQueue.len
  omega

theorem popQ_len {α : Type} [DecidableEq α] {q : PriorityQueue α} {m : PQEntry α}
    (h : selMin q.entries = some m) : q.popQ.len = q.len - 1 := by
  unfold PriorityQueue.popQ PriorityQueue.len
  rw [h]
  simp [List.length_erase_of_mem (selMin_mem h)]

/-! ## Helper lemmas: queue invariant -/

theorem pairwise_counter_inj {α : Type} {l : List (PQEntry α)}
    (hp : l.Pairwise (fun a b => a.counter ≠ b.counter)) :
    ∀ e ∈ l, ∀ m ∈ l, e.counter = m.counter → e = m := by
  induction l with
  | nil => intro e he; simp at he
  | cons a as ih =>
    intro e he m hm hc
    rcases List.pairwise_cons.mp hp with ⟨ha, hp'⟩
    rcases List.mem_cons.mp he with rfl | he' <;>
      rcases List.mem_cons.mp hm with rfl | hm'
    · rfl
    · exact absurd hc (ha _ hm')
    · exact absurd hc.symm (ha _ he')
    · exact ih hp' _ he' _ hm' hc

theorem pqInv_push {α : Type} {q : PriorityQueue α} (h : pqInv q)
    (item : α) (p : Int) : pqInv (q.push item p) := by
  obtain ⟨hb, hp⟩ := h
  constructor
  · intro e he
    simp only [PriorityQueue.push, List.mem_append, List.mem_singleton] at he
    rcases he with he | rfl
    · exact Nat.lt_succ_of_lt (hb _ he)
    · exact Nat.lt_succ_self _
  · simp only [PriorityQueue.push]
    rw [List.pairwise_append]
    refine ⟨hp, List.pairwise_singleton _ _, ?_⟩
    intro a ha b hb'
    simp only [List.mem_singleton] at hb'
    subst hb'
    have := hb _ ha
    dsimp only
    omega

theorem pqInv_popQ {α : Type} [DecidableEq α] {q : PriorityQueue α}
    (h : pqInv q) : pqInv q.popQ := by
  obtain ⟨hb, hp⟩ := h
  unfold PriorityQueue.popQ
  cases hm : selMin q.entries with
  | none => exact ⟨hb, hp⟩
  | some m =>
    constructor
    · intro e he
      exact hb _ (List.mem_of_mem_erase he)
    · exact hp.sublist (List.erase_sublist _ _)

theorem pqInv_runPQ {α : Type} [DecidableEq α] (ops : List (PQOp α)) :
    pqInv (runPQ ops) := by
  have key : ∀ (l : List (PQOp α)) (q : PriorityQueue α), pqInv q →
      pqInv (l.foldl applyPQOp q) := by
    intro l
    induction l with
    | nil => intro q hq; exact hq
    | cons op rest ih =>
      intro q hq
      cases op with
      | push item p => exact ih _ (pqInv_push hq item p)
      | pop => exact ih _ (pqInv_popQ hq)
  refine key ops _ ?_
  exact ⟨by intro e he; simp at he, List.Pairwise.nil⟩

/-! ## Helper lemmas: one unfolding of the admission step -/

theorem pp_aux_empty {fuel : Nat} {s : InterruptSystem}
    (h : s.pending_queue.peekEntry = none) :
    process_pending_aux (fuel + 1) s =
      ({ s with processing_event := true }, [SchedEv.observed true]) := by
  rw [process_pending_aux.eq_def]
  simp only [h]

theorem pp_aux_blocked {fuel : Nat} {s : InterruptSystem}
    {m : PQEntry Interrupt} {c : Interrupt}
    (hm : s.pending_queue.peekEntry = some m)
    (hc : s.active_stack.getLast? = some c)
    (hp : ¬ m.item.priority > c.priority) :
    process_pending_aux (fuel + 1) s = (s, [SchedEv.observed false]) := by
  rw [process_pending_aux.eq_def]
  simp only [hm, hc]
  simp [hp]

theorem pp_aux_admit_spawn {fuel : Nat} {s : InterruptSystem}
    {m : PQEntry Interrupt} {h : InterruptHandler}
    (hm : s.pending_queue.peekEntry = some m)
    (hnb : s.active_stack = [] ∨
      ∃ c, s.active_stack.getLast? = some c ∧ m.item.priority > c.priority)
    (hh : dictGet s.handlers m.item.name = some h) :
    process_pending_aux (fuel + 1) s =
      ({ s with pending_queue := s.pending_queue.popQ,
                active_stack := s.active_stack ++ [{ m.item with is_active := true }] },
       [SchedEv.observed false, SchedEv.admitted { m.item with is_active := true },
        SchedEv.spawned h { m.item with is_active := true }]) := by
  rw [process_pending_aux.eq_def]
  simp only [hm]
  rcases hnb with hemp | ⟨c, hc, hp⟩
  · rw [hemp]
    simp [hh]
  · simp only [hc]
    simp [hp, hh]

theorem pp_aux_nohandler {fuel : Nat} {s : InterruptSystem}
    {m : PQEntry Interrupt}
    (hm : s.pending_queue.peekEntry = some m)
    (hnb : s.active_stack = [] ∨
      ∃ c, s.active_stack.getLast? = some c ∧ m.item.priority > c.priority)
    (hh : dictGet s.handlers m.item.name = none) :
    process_pending_aux (fuel + 1) s =
      ((process_pending_aux fuel (nohandlerNext s m)).1,
       SchedEv.observed false :: SchedEv.admitted { m.item with is_active := true } ::
        SchedEv.finished { m.item with is_active := false } ::
        (process_pending_aux fuel (nohandlerNext s m)).2) := by
  rw [process_pending_aux.eq_def]
  simp only [hm]
  rcases hnb with hemp | ⟨c, hc, hp⟩
  · simp [hemp, hh, nohandlerNext, finishCore]
  · simp only [hc]
    simp [hp, hh, nohandlerNext, finishCore]

/-- Either the head of the queue is blocked by the current stack top, or it
is eligible for admission (empty stack or strictly smaller top priority). -/
theorem stack_top_split (s : InterruptSystem) (m : PQEntry Interrupt) :
    (∃ c, s.active_stack.getLast? = some c ∧ ¬ m.item.priority > c.priority) ∨
    (s.active_stack = [] ∨
      ∃ c, s.active_stack.getLast? = some c ∧ m.item.priority > c.priority) := by
  cases hc : s.active_stack.getLast? with
  | none => exact Or.inr (Or.inl (List.getLast?_eq_none_iff.mp hc))
  | some c =>
    by_cases hp : m.item.priority > c.priority
    · exact Or.inr (Or.inr ⟨c, rfl, hp⟩)
    · exact Or.inl ⟨c, rfl, hp⟩

theorem nohandlerNext_len {s : InterruptSystem} {m : PQEntry Interrupt}
    (hm : s.pending_queue.peekEntry = some m) :
    (nohandlerNext s m).pending_queue.len = s.pending_queue.len - 1 := by
  have : (nohandlerNext s m).pending_queue = s.pending_queue.popQ := rfl
  rw [this]
  exact popQ_len hm

theorem pp_aux_fuel_irrel :
    ∀ (f f' : Nat) (s : InterruptSystem),
      s.pending_queue.len < f → s.pending_queue.len < f' →
      process_pending_aux f s = process_pending_aux f' s := by
  intro f
  induction f with
  | zero => intro f' s h _; exact absurd h (Nat.not_lt_zero _)
  | succ n ih =>
    intro f' s h h'
    cases f' with
    | zero => exact absurd h' (Nat.not_lt_zero _)
    | succ n' =>
      cases hm : s.pending_queue.peekEntry with
      | none => rw [pp_aux_empty hm, pp_aux_empty hm]
      | some m =>
        rcases stack_top_split s m with ⟨c, hc, hp⟩ | hnb
        · rw [pp_aux_blocked hm hc hp, pp_aux_blocked hm hc hp]
        · have hpos := selMin_len_pos hm
          have hlen : (nohandlerNext s m).pending_queue.len < n := by
            rw [nohandlerNext_len hm]; omega
          have hlen' : (nohandlerNext s m).pending_queue.len < n' := by
            rw [nohandlerNext_len hm]; omega
          cases hh : dictGet s.handlers m.item.name with
          | some hd =>
            rw [pp_aux_admit_spawn hm hnb hh, pp_aux_admit_spawn hm hnb hh]
          | none =>
            rw [pp_aux_nohandler hm hnb hh, pp_aux_nohandler hm hnb hh]
            rw [ih n' (nohandlerNext s m) hlen hlen']

/-! ## Step lemmas at the `process_pending` level -/

theorem pp_empty {s : InterruptSystem}
    (h : s.pending_queue.peekEntry = none) :
    process_pending s =
      ({ s with processing_event := true }, [SchedEv.observed true]) :=
  pp_aux_empty h

theorem pp_blocked {s : InterruptSystem} {m : PQEntry Interrupt} {c : Interrupt}
    (hm : s.pending_queue.peekEntry = some m)
    (hc : s.active_stack.getLast? = some c)
    (hp : ¬ m.item.priority > c.priority) :
    process_pending s = (s, [SchedEv.observed false]) :=
  pp_aux_blocked hm hc hp

theorem pp_admit_spawn {s : InterruptSystem} {m : PQEntry Interrupt}
    {h : InterruptHandler}
    (hm : s.pending_queue.peekEntry = some m)
    (hnb : s.active_stack = [] ∨
      ∃ c, s.active_stack.getLast? = some c ∧ m.item.priority > c.priority)
    (hh : dictGet s.handlers m.item.name = some h) :
    process_pending s =
      ({ s with pending_queue := s.pending_queue.popQ,
                active_stack := s.active_stack ++ [{ m.item with is_active := true }] },
       [SchedEv.observed false, SchedEv.admitted { m.item with is_active := true },
        SchedEv.spawned h { m.item with is_active := true }]) :=
  pp_aux_admit_spawn hm hnb hh

theorem pp_nohandler {s : InterruptSystem} {m : PQEntry Interrupt}
    (hm : s.pending_queue.peekEntry = some m)
    (hnb : s.active_stack = [] ∨
      ∃ c, s.active_stack.getLast? = some c ∧ m.item.priority > c.priority)
    (hh : dictGet s.handlers m.item.name = none) :
    process_pending s =
      ((process_pending (nohandlerNext s m)).1,
       SchedEv.observed false :: SchedEv.admitted { m.item with is_active := true } ::
        SchedEv.finished { m.item with is_active := false } ::
        (process_pending (nohandlerNext s m)).2) := by
  have h1 : process_pending s = process_pending_aux (s.pending_queue.len + 1) s := rfl
  rw [h1, pp_aux_nohandler hm hnb hh]
  have hpos := selMin_len_pos hm
  have hlen : (nohandlerNext s m).pending_queue.len < s.pending_queue.len := by
    rw [nohandlerNext_len hm]; omega
  have h2 : process_pending_aux (s.pending_queue.len) (nohandlerNext s m) =
      process_pending (nohandlerNext s m) := by
    unfold process_pending
    exact pp_aux_fuel_irrel _ _ _ hlen (Nat.lt_succ_self _)
  rw [h2]

/-- The queue length strictly decreases into the no-handler recursion; used
as the measure for induction over `process_pending`. -/
theorem nohandlerNext_len_lt {s : InterruptSystem} {m : PQEntry Interrupt}
    (hm : s.pending_queue.peekEntry = some m) :
    (nohandlerNext s m).pending_queue.len < s.pending_queue.len := by
  have hpos := selMin_len_pos hm
  rw [nohandlerNext_len hm]
  omega

/-! ## Helper lemmas: traces and emptiness -/

theorem lastObs_cons_of_some {e : SchedEv} {T : List SchedEv} {b : Bool}
    (h : lastObs T = some b) : lastObs (e :: T) = some b := by
  simp only [lastObs, h]

theorem lastObs_append_right (T1 : List SchedEv) {T2 : List SchedEv} {b : Bool}
    (h : lastObs T2 = some b) : lastObs (T1 ++ T2) = some b := by
  induction T1 with
  | nil => simpa using h
  | cons e T1 ih => exact lastObs_cons_of_some ih

theorem peekEntry_none_is_empty {s : InterruptSystem}
    (h : s.pending_queue.peekEntry = none) :
    s.pending_queue.is_empty = true := by
  unfold PriorityQueue.peekEntry at h
  unfold PriorityQueue.is_empty
  rw [selMin_eq_none.mp h]
  rfl

theorem peekEntry_some_not_empty {s : InterruptSystem} {m : PQEntry Interrupt}
    (hm : s.pending_queue.peekEntry = some m) :
    s.pending_queue.is_empty = false := by
  unfold PriorityQueue.peekEntry at hm
  unfold PriorityQueue.is_empty
  have : s.pending_queue.entries ≠ [] := by
    intro hnil
    rw [hnil] at hm
    simp [selMin] at hm
  simpa [List.isEmpty_iff] using this

/-- A set completion flag certifies a queue the admission step would observe
as empty; under that flag the entry check cannot see a pending item. -/
theorem event_true_no_peek {s : InterruptSystem} {m : PQEntry Interrupt}
    (h : s.processing_event = true → s.pending_queue.is_empty = true)
    (hm : s.pending_queue.peekEntry = some m) :
    s.processing_event = false := by
  cases hev : s.processing_event with
  | false => rfl
  | true =>
    have := h hev
    rw [peekEntry_some_not_empty hm] at this
    cases this

/-! ## Facts about a full admission step, by induction on the queue length -/

theorem process_pending_handlers (s : InterruptSystem) :
    (process_pending s).1.handlers = s.handlers := by
  generalize hn : s.pending_queue.len = n
  induction n using Nat.strong_induction_on generalizing s with
  | _ n ih =>
  cases hm : s.pending_queue.peekEntry with
  | none => rw [pp_empty hm]
  | some m =>
    rcases stack_top_split s m with ⟨c, hc, hp⟩ | hnb
    · rw [pp_blocked hm hc hp]
    · cases hh : dictGet s.handlers m.item.name with
      | some hd => rw [pp_admit_spawn hm hnb hh]
      | none =>
        rw [pp_nohandler hm hnb hh]
        have hlt : (nohandlerNext s m).pending_queue.len < n := by
          rw [← hn]; exact nohandlerNext_len_lt hm
        exact ih _ hlt (nohandlerNext s m) rfl

theorem spawned_on_stack (s : InterruptSystem) (h : InterruptHandler)
    (i : Interrupt) (hsp : SchedEv.spawned h i ∈ (process_pending s).2) :
    (process_pending s).1.active_stack.getLast? = some i := by
  generalize hn : s.pending_queue.len = n
  induction n using Nat.strong_induction_on generalizing s with
  | _ n ih =>
  cases hm : s.pending_queue.peekEntry with
  | none => rw [pp_empty hm] at hsp; simp at hsp
  | some m =>
    rcases stack_top_split s m with ⟨c, hc, hp⟩ | hnb
    · rw [pp_blocked hm hc hp] at hsp; simp at hsp
    · cases hh : dictGet s.handlers m.item.name with
      | some hd =>
        rw [pp_admit_spawn hm hnb hh] at hsp ⊢
        simp only [List.mem_cons, List.not_mem_nil, or_false] at hsp
        rcases hsp with h1 | h1 | h1
        · cases h1
        · cases h1
        · injection h1 with h1 h2
          subst h2
          simp [List.getLast?_concat]
      | none =>
        rw [pp_nohandler hm hnb hh] at hsp ⊢
        simp only [List.mem_cons] at hsp
        rcases hsp with h1 | h1 | h1 | h1
        · cases h1
        · cases h1
        · cases h1
        · have hlt : (nohandlerNext s m).pending_queue.len < n := by
            rw [← hn]; exact nohandlerNext_len_lt hm
          exact ih _ hlt (nohandlerNext s m) h1 rfl

theorem spawned_handler_reg (s : InterruptSystem) (h : InterruptHandler)
    (i : Interrupt) (hsp : SchedEv.spawned h i ∈ (process_pending s).2) :
    dictGet s.handlers i.name = some h := by
  generalize hn : s.pending_queue.len = n
  induction n using Nat.strong_induction_on generalizing s with
  | _ n ih =>
  cases hm : s.pending_queue.peekEntry with
  | none => rw [pp_empty hm] at hsp; simp at hsp
  | some m =>
    rcases stack_top_split s m with ⟨c, hc, hp⟩ | hnb
    · rw [pp_blocked hm hc hp] at hsp; simp at hsp
    · cases hh : dictGet s.handlers m.item.name with
      | some hd =>
        rw [pp_admit_spawn hm hnb hh] at hsp
        simp only [List.mem_cons, List.not_mem_nil, or_false] at hsp
        rcases hsp with h1 | h1 | h1
        · cases h1
        · cases h1
        · injection h1 with h1 h2
          subst h1
          subst h2
          exact hh
      | none =>
        rw [pp_nohandler hm hnb hh] at hsp
        simp only [List.mem_cons] at hsp
        rcases hsp with h1 | h1 | h1 | h1
        · cases h1
        · cases h1
        · cases h1
        · have hlt : (nohandlerNext s m).pending_queue.len < n := by
            rw [← hn]; exact nohandlerNext_len_lt hm
          exact ih _ hlt (nohandlerNext s m) h1 rfl

theorem process_pending_admission_count (s : InterruptSystem) :
    admCount (process_pending s).2 ≤ finCount (process_pending s).2 + 1 := by
  generalize hn : s.pending_queue.len = n
  induction n using Nat.strong_induction_on generalizing s with
  | _ n ih =>
  cases hm : s.pending_queue.peekEntry with
  | none => rw [pp_empty hm]; simp [admCount, finCount]
  | some m =>
    rcases stack_top_split s m with ⟨c, hc, hp⟩ | hnb
    · rw [pp_blocked hm hc hp]; simp [admCount, finCount]
    · cases hh : dictGet s.handlers m.item.name with
      | some hd =>
        rw [pp_admit_spawn hm hnb hh]
        simp [admCount, finCount, List.countP_cons]
      | none =>
        rw [pp_nohandler hm hnb hh]
        have hlt : (nohandlerNext s m).pending_queue.len < n := by
          rw [← hn]; exact nohandlerNext_len_lt hm
        have := ih _ hlt (nohandlerNext s m) rfl
        simp only [admCount, finCount, List.countP_cons] at this ⊢
        omega

/-- Core completion-signal lemma: provided a set flag certifies an empty
queue on entry, after a full admission step the flag is set exactly when the
last emptiness observation of the step saw an empty queue, a set flag still
certifies an empty queue, and the step made at least one observation. -/
theorem process_pending_event (s : InterruptSystem)
    (h : s.processing_event = true → s.pending_queue.is_empty = true) :
    ((process_pending s).1.processing_event = true ↔
        lastObs (process_pending s).2 = some true) ∧
      ((process_pending s).1.processing_event = true →
        (process_pending s).1.pending_queue.is_empty = true) ∧
      (∃ b, lastObs (process_pending s).2 = some b) := by
  generalize hn : s.pending_queue.len = n
  induction n using Nat.strong_induction_on generalizing s with
  | _ n ih =>
  cases hm : s.pending_queue.peekEntry with
  | none =>
    rw [pp_empty hm]
    refine ⟨by simp [lastObs], fun _ => peekEntry_none_is_empty hm, true, by simp [lastObs]⟩
  | some m =>
    have hev : s.processing_event = false := event_true_no_peek h hm
    rcases stack_top_split s m with ⟨c, hc, hp⟩ | hnb
    · rw [pp_blocked hm hc hp]
      exact ⟨by simp [lastObs, hev], by simp [hev], false, by simp [lastObs]⟩
    · cases hh : dictGet s.handlers m.item.name with
      | some hd =>
        rw [pp_admit_spawn hm hnb hh]
        exact ⟨by simp [lastObs, hev], by simp [hev], false, by simp [lastObs]⟩
      | none =>
        rw [pp_nohandler hm hnb hh]
        have hlt : (nohandlerNext s m).pending_queue.len < n := by
          rw [← hn]; exact nohandlerNext_len_lt hm
        have hev' : (nohandlerNext s m).processing_event = true →
            (nohandlerNext s m).pending_queue.is_empty = true := by
          intro hx
          have : (nohandlerNext s m).processing_event = s.processing_event := rfl
          rw [this, hev] at hx
          cases hx
        obtain ⟨ih1, ih2, b, ih3⟩ := ih _ hlt (nohandlerNext s m) hev' rfl
        have hfull : lastObs (SchedEv.observed false ::
            SchedEv.admitted { m.item with is_active := true } ::
            SchedEv.finished { m.item with is_active := false } ::
            (process_pending (nohandlerNext s m)).2) = some b :=
          lastObs_cons_of_some (lastObs_cons_of_some (lastObs_cons_of_some ih3))
        refine ⟨?_, ih2, b, hfull⟩
        rw [hfull]
        rw [ih3] at ih1
        exact ih1

/-- The admission step never reads the global mask or the definition
registry; transplanting those two fields commutes with it. -/
theorem process_pending_transplant (s : InterruptSystem) (gm : Bool)
    (d : List (String × Interrupt)) :
    process_pending { s with global_mask := gm, interrupts := d } =
      ({ (process_pending s).1 with global_mask := gm, interrupts := d },
       (process_pending s).2) := by
  generalize hn : s.pending_queue.len = n
  induction n using Nat.strong_induction_on generalizing s with
  | _ n ih =>
  cases hm : s.pending_queue.peekEntry with
  | none =>
    have hm' : ({ s with global_mask := gm, interrupts := d } :
        InterruptSystem).pending_queue.peekEntry = none := hm
    rw [pp_empty hm', pp_empty hm]
  | some m =>
    have hm' : ({ s with global_mask := gm, interrupts := d } :
        InterruptSystem).pending_queue.peekEntry = some m := hm
    rcases stack_top_split s m with ⟨c, hc, hp⟩ | hnb
    · have hc' : ({ s with global_mask := gm, interrupts := d } :
          InterruptSystem).active_stack.getLast? = some c := hc
      rw [pp_blocked hm' hc' hp, pp_blocked hm hc hp]
    · have hnb' : ({ s with global_mask := gm, interrupts := d } :
          InterruptSystem).active_stack = [] ∨
          ∃ c, ({ s with global_mask := gm, interrupts := d } :
            InterruptSystem).active_stack.getLast? = some c ∧
              m.item.priority > c.priority := hnb
      cases hh : dictGet s.handlers m.item.name with
      | some hd =>
        have hh' : dictGet ({ s with global_mask := gm, interrupts := d } :
            InterruptSystem).handlers m.item.name = some hd := hh
        rw [pp_admit_spawn hm' hnb' hh', pp_admit_spawn hm hnb hh]
      | none =>
        have hh' : dictGet ({ s with global_mask := gm, interrupts := d } :
            InterruptSystem).handlers m.item.name = none := hh
        rw [pp_nohandler hm' hnb' hh', pp_nohandler hm hnb hh]
        have e1 : nohandlerNext ({ s with global_mask := gm, interrupts := d } :
            InterruptSystem) m =
            { nohandlerNext s m with global_mask := gm, interrupts := d } := rfl
        rw [e1]
        have hlt : (nohandlerNext s m).pending_queue.len < n := by
          rw [← hn]; exact nohandlerNext_len_lt hm
        rw [ih _ hlt (nohandlerNext s m) rfl]

/-! ## Frame lemmas for the remaining dispatcher operations -/

theorem register_interrupt_frame (s : InterruptSystem) (n : String)
    (p : Int) (hdl : Option Nat) :
    (register_interrupt s n p hdl).1.pending_queue = s.pending_queue ∧
      (register_interrupt s n p hdl).1.active_stack = s.active_stack ∧
      (register_interrupt s n p hdl).1.processing_event = s.processing_event := by
  cases h : dictGet s.interrupts n with
  | some i => simp [register_interrupt, h]
  | none => cases hdl <;> simp [register_interrupt, register_handler, h]

theorem register_handler_frame (s : InterruptSystem) (n : String) (cb : Nat) :
    (register_handler s n cb).1.pending_queue = s.pending_queue ∧
      (register_handler s n cb).1.active_stack = s.active_stack ∧
      (register_handler s n cb).1.processing_event = s.processing_event :=
  ⟨rfl, rfl, rfl⟩

theorem mask_interrupt_frame (s : InterruptSystem) (n : String) (msk : Bool) :
    (mask_interrupt s n msk).1.pending_queue = s.pending_queue ∧
      (mask_interrupt s n msk).1.active_stack = s.active_stack ∧
      (mask_interrupt s n msk).1.processing_event = s.processing_event := by
  cases h : dictGet s.interrupts n with
  | some i => simp [mask_interrupt, h]
  | none => simp [mask_interrupt, h]

theorem mask_all_frame (s : InterruptSystem) (msk : Bool) :
    (mask_all s msk).pending_queue = s.pending_queue ∧
      (mask_all s msk).active_stack = s.active_stack ∧
      (mask_all s msk).processing_event = s.processing_event :=
  ⟨rfl, rfl, rfl⟩

/-- Every external operation preserves the completion-signal invariant. -/
theorem applyOp_inv {s : InterruptSystem} {T : List SchedEv} (op : SysOp)
    (h : SysInv s T) : SysInv (applyOp s op).1 (T ++ (applyOp s op).2) := by
  obtain ⟨h1, h2⟩ := h
  cases op with
  | register n p hdl =>
    obtain ⟨f1, f2, f3⟩ := register_interrupt_frame s n p hdl
    simp only [applyOp, List.append_nil]
    exact ⟨by rw [f3]; exact h1, by rw [f1, f3]; exact h2⟩
  | regHandler n cb =>
    obtain ⟨f1, f2, f3⟩ := register_handler_frame s n cb
    simp only [applyOp, List.append_nil]
    exact ⟨by rw [f3]; exact h1, by rw [f1, f3]; exact h2⟩
  | maskInterrupt n msk =>
    obtain ⟨f1, f2, f3⟩ := mask_interrupt_frame s n msk
    simp only [applyOp, List.append_nil]
    exact ⟨by rw [f3]; exact h1, by rw [f1, f3]; exact h2⟩
  | maskAll msk =>
    obtain ⟨f1, f2, f3⟩ := mask_all_frame s msk
    simp only [applyOp, List.append_nil]
    exact ⟨by rw [f3]; exact h1, by rw [f1, f3]; exact h2⟩
  | trigger n d =>
    simp only [applyOp]
    unfold trigger
    cases hg : s.global_mask with
    | true =>
      simp only [hg, if_true, List.append_nil]
      exact ⟨h1, h2⟩
    | false =>
      simp only [hg, Bool.false_eq_true, if_false]
      cases hd : dictGet s.interrupts n with
      | none =>
        simp only [List.append_nil]
        exact ⟨h1, h2⟩
      | some i =>
        cases hmsk : i.is_masked with
        | true =>
          simp only [hmsk, if_true, List.append_nil]
          exact ⟨h1, h2⟩
        | false =>
          simp only [hmsk, Bool.false_eq_true, if_false]
          obtain ⟨e1, e2, b, e3⟩ := process_pending_event
            { s with
              pending_queue := (s.pending_queue.push
                ⟨i.name, i.priority, i.handler, d, false, false, s.next_iid⟩
                i.priority),
              next_iid := s.next_iid + 1, processing_event := false,
              global_mask := false }
            (fun hx => Bool.noConfusion hx)
          have happ := lastObs_append_right T e3
          rw [e3] at e1
          exact ⟨by rw [happ]; exact e1, e2⟩
  | finish iid out =>
    simp only [applyOp]
    cases hf : findActive s iid with
    | none =>
      simp only [List.append_nil]
      exact ⟨h1, h2⟩
    | some intr =>
      simp only [execute_handler, finish_interrupt]
      obtain ⟨e1, e2, b, e3⟩ := process_pending_event (finishCore s intr) h2
      have happ := lastObs_append_right T (lastObs_cons_of_some
        (e := SchedEv.finished { intr with is_active := false }) e3)
      rw [e3] at e1
      exact ⟨by rw [happ]; exact e1, e2⟩

/-- The completion-signal invariant holds along every run from the fresh
system. -/
theorem runOps_inv (ops : List SysOp) :
    SysInv (runOps ops).1 (runOps ops).2 := by
  have key : ∀ (l : List SysOp) (acc : InterruptSystem × List SchedEv),
      SysInv acc.1 acc.2 →
      SysInv (l.foldl runStep acc).1 (l.foldl runStep acc).2 := by
    intro l
    induction l with
    | nil => intro acc h; exact h
    | cons op rest ih =>
      intro acc h
      exact ih _ (applyOp_inv op h)
  refine key ops (initSystem, []) ⟨by simp [initSystem, lastObs], ?_⟩
  intro hx
  simp [initSystem] at hx

/-! ## Claim theorems -/

/-- C4: after any sequence of push and pop operations on the priority queue,
`peek` returns the element maximal under the order "priority descending,
then arrival sequence ascending" (equal-priority entries are returned
earliest-pushed first), stored sequence numbers are pairwise distinct and
below the allocation counter, and a further push appends an entry whose
sequence number is strictly larger than that of every stored entry — so
sequence numbers are strictly increasing across pushes and never reused. -/
theorem C4_priority_queue_order {α : Type} [DecidableEq α]
    (ops : List (PQOp α)) :
    pqInv (runPQ ops) ∧
    (∀ me, (runPQ ops).peekEntry = some me →
      (runPQ ops).peek = some me.item ∧
      ∀ e ∈ (runPQ ops).entries, e ≠ me →
        me.negPriority < e.negPriority ∨
          (me.negPriority = e.negPriority ∧ me.counter < e.counter)) ∧
    (∀ (it : α) (p : Int),
      ((runPQ ops).push it p).entries =
        (runPQ ops).entries ++ [⟨-p, (runPQ ops).entry_counter, it⟩] ∧
      ∀ e ∈ (runPQ ops).entries, e.counter < (runPQ ops).entry_counter) := by
  obtain ⟨hb, hp⟩ := pqInv_runPQ ops
  refine ⟨⟨hb, hp⟩, ?_, fun it p => ⟨rfl, hb⟩⟩
  intro me hme
  have hmem := selMin_mem hme
  constructor
  · unfold PriorityQueue.peek
    unfold PriorityQueue.peekEntry at hme
    rw [hme]
    rfl
  · intro e he hne
    have hnot := selMin_not_lt hme e he
    by_cases hc : me.counter = e.counter
    · exact absurd (pairwise_counter_inj hp e he me hmem hc.symm) hne
    · unfold entryLt at hnot
      omega

/-- C4 witness: three pushes (two of equal priority 5, then one of priority
1); `peek` returns the earliest-pushed of the equal-priority pair. -/
theorem C4_priority_queue_order_witness :
    (runPQ [PQOp.push (7 : Nat) 5, PQOp.push 8 5, PQOp.push 9 1]).peek =
      some 7 ∧
    pqInv (runPQ [PQOp.push (7 : Nat) 5, PQOp.push 8 5, PQOp.push 9 1]) := by
  have h := C4_priority_queue_order
    [PQOp.push (7 : Nat) 5, PQOp.push 8 5, PQOp.push 9 1]
  exact ⟨(h.2.1 ⟨-5, 0, 7⟩ (by decide)).1, h.1⟩

/-- C1: one invocation of the admission step performs at most one admission
decision: (1) on an empty queue it only sets the completion flag; (2) when
the stack is non-empty and the queue head does not strictly exceed the top's
priority (in particular on equal priority) the state is unchanged; (3) when
the stack is empty or the head strictly exceeds the top, the head is
admitted; (4) with a registered handler the step performs exactly that one
admission, spawning the handler; (5) in every case the admissions in the
step's trace exceed the completions by at most one — an admission beyond
the first happens only after the synchronous completion of a handler-less
instance, i.e. on a nested invocation, never as a drain loop. -/
theorem C1_admission_step :
    (∀ s : InterruptSystem, s.pending_queue.peekEntry = none →
      process_pending s =
        ({ s with processing_event := true }, [SchedEv.observed true])) ∧
    (∀ (s : InterruptSystem) (m : PQEntry Interrupt) (c : Interrupt),
      s.pending_queue.peekEntry = some m →
      s.active_stack.getLast? = some c →
      ¬ m.item.priority > c.priority →
      process_pending s = (s, [SchedEv.observed false])) ∧
    (∀ (s : InterruptSystem) (m : PQEntry Interrupt),
      s.pending_queue.peekEntry = some m →
      (s.active_stack = [] ∨ ∃ c, s.active_stack.getLast? = some c ∧
        m.item.priority > c.priority) →
      SchedEv.admitted { m.item with is_active := true } ∈
        (process_pending s).2) ∧
    (∀ (s : InterruptSystem) (m : PQEntry Interrupt) (h : InterruptHandler),
      s.pending_queue.peekEntry = some m →
      (s.active_stack = [] ∨ ∃ c, s.active_stack.getLast? = some c ∧
        m.item.priority > c.priority) →
      dictGet s.handlers m.item.name = some h →
      process_pending s =
        ({ s with pending_queue := s.pending_queue.popQ,
                  active_stack :=
                    s.active_stack ++ [{ m.item with is_active := true }] },
         [SchedEv.observed false,
          SchedEv.admitted { m.item with is_active := true },
          SchedEv.spawned h { m.item with is_active := true }])) ∧
    (∀ s : InterruptSystem,
      admCount (process_pending s).2 ≤ finCount (process_pending s).2 + 1) := by
  refine ⟨fun s h => pp_empty h,
    fun s m c hm hc hp => pp_blocked hm hc hp,
    ?_,
    fun s m h hm hnb hh => pp_admit_spawn hm hnb hh,
    process_pending_admission_count⟩
  intro s m hm hnb
  cases hh : dictGet s.handlers m.item.name with
  | some hd =>
    rw [pp_admit_spawn hm hnb hh]
    simp
  | none =>
    rw [pp_nohandler hm hnb hh]
    simp

/-- C1 witness: the empty-queue branch on the fresh system, and the
equal-priority blocked branch on a one-element queue against a stack whose
top has the same priority 10. -/
theorem C1_admission_step_witness :
    process_pending initSystem =
      ({ initSystem with processing_event := true }, [SchedEv.observed true]) ∧
    process_pending
      { interrupts := [], handlers := [],
        pending_queue := ⟨[⟨-10, 0, ⟨"b", 10, none, none, false, false, 1⟩⟩], 1⟩,
        active_stack := [⟨"a", 10, none, none, true, false, 0⟩],
        global_mask := false, processing_event := false, next_iid := 2 } =
      ({ interrupts := [], handlers := [],
         pending_queue := ⟨[⟨-10, 0, ⟨"b", 10, none, none, false, false, 1⟩⟩], 1⟩,
         active_stack := [⟨"a", 10, none, none, true, false, 0⟩],
         global_mask := false, processing_event := false, next_iid := 2 },
       [SchedEv.observed false]) := by
  constructor
  · exact C1_admission_step.1 initSystem (by decide)
  · exact C1_admission_step.2.1
      { interrupts := [], handlers := [],
        pending_queue := ⟨[⟨-10, 0, ⟨"b", 10, none, none, false, false, 1⟩⟩], 1⟩,
        active_stack := [⟨"a", 10, none, none, true, false, 0⟩],
        global_mask := false, processing_event := false, next_iid := 2 }
      ⟨-10, 0, ⟨"b", 10, none, none, false, false, 1⟩⟩
      ⟨"a", 10, none, none, true, false, 0⟩
      (by decide) (by decide) (by decide)

/-- C2: `trigger` returns `False` with the dispatcher state unchanged exactly
when the global mask is set, or the name is not a registered definition, or
the definition's own mask is set (the source checks them in that order);
otherwise it pushes exactly one fresh instance — name, priority and handler
reference copied from the definition, the supplied payload, the next
identity — clears the completion event, runs one admission step, and
returns `True`; a handler spawned during the call is still on the active
stack when the call returns, i.e. the call does not wait for the handler to
complete. -/
theorem C2_trigger_contract :
    (∀ (s : InterruptSystem) (n : String) (d : Option Nat),
      ((trigger s n d).2.1 = false ∧ (trigger s n d).1 = s) ↔
        (s.global_mask = true ∨ dictGet s.interrupts n = none ∨
          ∃ i, dictGet s.interrupts n = some i ∧ i.is_masked = true)) ∧
    (∀ (s : InterruptSystem) (n : String) (d : Option Nat) (i : Interrupt),
      s.global_mask = false → dictGet s.interrupts n = some i →
      i.is_masked = false →
      trigger s n d =
        ((process_pending
            { s with
              pending_queue := (s.pending_queue.push
                ⟨i.name, i.priority, i.handler, d, false, false, s.next_iid⟩
                i.priority),
              next_iid := s.next_iid + 1,
              processing_event := false }).1,
         true,
         (process_pending
            { s with
              pending_queue := (s.pending_queue.push
                ⟨i.name, i.priority, i.handler, d, false, false, s.next_iid⟩
                i.priority),
              next_iid := s.next_iid + 1,
              processing_event := false }).2)) ∧
    (∀ (s : InterruptSystem) (n : String) (d : Option Nat)
        (h : InterruptHandler) (i : Interrupt),
      SchedEv.spawned h i ∈ (trigger s n d).2.2 →
      (trigger s n d).1.active_stack.getLast? = some i) := by
  refine ⟨?_, ?_, ?_⟩
  · intro s n d
    unfold trigger
    cases hg : s.global_mask with
    | true => simp [hg]
    | false =>
      simp only [hg, Bool.false_eq_true, if_false]
      cases hd : dictGet s.interrupts n with
      | none => simp
      | some i =>
        cases hmsk : i.is_masked with
        | true => simp [hmsk]
        | false => simp [hmsk]
  · intro s n d i hg hd hmsk
    unfold trigger
    simp only [hg, Bool.false_eq_true, if_false, hd, hmsk]
  · intro s n d h i hsp
    unfold trigger at hsp ⊢
    cases hg : s.global_mask with
    | true => simp [hg] at hsp
    | false =>
      simp only [hg, Bool.false_eq_true, if_false] at hsp ⊢
      cases hd : dictGet s.interrupts n with
      | none => simp [hd] at hsp
      | some i' =>
        simp only [hd] at hsp ⊢
        cases hmsk : i'.is_masked with
        | true => simp [hmsk] at hsp
        | false =>
          simp only [hmsk, Bool.false_eq_true, if_false] at hsp ⊢
          exact spawned_on_stack _ h i hsp

/-- C2 witness: triggering an unregistered name on the fresh system is
rejected with no state change; on a one-definition system the trigger of an
unmasked definition returns `True`. -/
theorem C2_trigger_contract_witness :
    ((trigger initSystem "x" none).2.1 = false ∧
      (trigger initSystem "x" none).1 = initSystem) ∧
    (trigger
      { interrupts := [("a", ⟨"a", 10, none, none, false, false, 0⟩)],
        handlers := [], pending_queue := ⟨[], 0⟩, active_stack := [],
        global_mask := false, processing_event := false, next_iid := 1 }
      "a" none).2.1 = true := by
  constructor
  · exact (C2_trigger_contract.1 initSystem "x" none).mpr
      (Or.inr (Or.inl (by decide)))
  · rw [C2_trigger_contract.2.1
      { interrupts := [("a", ⟨"a", 10, none, none, false, false, 0⟩)],
        handlers := [], pending_queue := ⟨[], 0⟩, active_stack := [],
        global_mask := false, processing_event := false, next_iid := 1 }
      "a" none ⟨"a", 10, none, none, false, false, 0⟩
      (by decide) (by decide) (by decide)]

/-- C3: along every run from the fresh system the completion event is set
exactly when the most recent emptiness check at the entry of an admission
step observed the pending queue empty (and it is unset while no check has
happened yet); an admission step that finds the queue empty sets the event;
and an accepted trigger hands the admission step a state whose completion
event has just been cleared — so the signal is false from the moment a
trigger is accepted until the next empty-queue observation. -/
theorem C3_completion_signal :
    (∀ ops : List SysOp,
      (runOps ops).1.processing_event = true ↔
        lastObs (runOps ops).2 = some true) ∧
    (∀ s : InterruptSystem, s.pending_queue.peekEntry = none →
      (process_pending s).1.processing_event = true) ∧
    (∀ (s : InterruptSystem) (n : String) (d : Option Nat) (i : Interrupt),
      s.global_mask = false → dictGet s.interrupts n = some i →
      i.is_masked = false →
      ∃ s1 : InterruptSystem, s1.processing_event = false ∧
        trigger s n d =
          ((process_pending s1).1, true, (process_pending s1).2)) := by
  refine ⟨fun ops => (runOps_inv ops).1, ?_, ?_⟩
  · intro s h
    rw [pp_empty h]
  · intro s n d i hg hd hmsk
    refine ⟨{ s with
        pending_queue := (s.pending_queue.push
          ⟨i.name, i.priority, i.handler, d, false, false, s.next_iid⟩
          i.priority),
        next_iid := s.next_iid + 1,
        processing_event := false }, rfl, ?_⟩
    unfold trigger
    simp only [hg, Bool.false_eq_true, if_false, hd, hmsk]

/-- C3 witness: an admission step on the fresh (empty-queue) system sets the
event, and an accepted trigger on a one-definition system runs through a
cleared-event intermediate state. -/
theorem C3_completion_signal_witness :
    (process_pending initSystem).1.processing_event = true ∧
    (∃ s1 : InterruptSystem, s1.processing_event = false ∧
      trigger
        { interrupts := [("a", ⟨"a", 10, none, none, false, false, 0⟩)],
          handlers := [], pending_queue := ⟨[], 0⟩, active_stack := [],
          global_mask := false, processing_event := false, next_iid := 1 }
        "a" none =
        ((process_pending s1).1, true, (process_pending s1).2)) :=
  ⟨C3_completion_signal.2.1 initSystem (by decide),
   C3_completion_signal.2.2
     { interrupts := [("a", ⟨"a", 10, none, none, false, false, 0⟩)],
       handlers := [], pending_queue := ⟨[], 0⟩, active_stack := [],
       global_mask := false, processing_event := false, next_iid := 1 }
     "a" none ⟨"a", 10, none, none, false, false, 0⟩
     (by decide) (by decide) (by decide)⟩

/-- C5: with `a` and `b` both registered at priority 10 (each with a
handler), triggering `a` then `b` from an empty stack admits `a` immediately
(stack `[a]`, queue empty), leaves `b` pending after its own trigger
(equal priority does not preempt), and the admission step run by `a`'s
completion admits `b` (stack `[b]`, queue empty), with `b`'s admission event
appearing in that completion's trace. -/
theorem C5_equal_priority_fifo :
    ((runOps [SysOp.register "a" 10 (some 1), SysOp.register "b" 10 (some 2),
        SysOp.trigger "a" none]).1.active_stack.map
          (fun i => (i.name, i.priority)) = [("a", 10)] ∧
      (runOps [SysOp.register "a" 10 (some 1), SysOp.register "b" 10 (some 2),
        SysOp.trigger "a" none]).1.pending_queue.is_empty = true) ∧
    ((runOps [SysOp.register "a" 10 (some 1), SysOp.register "b" 10 (some 2),
        SysOp.trigger "a" none, SysOp.trigger "b" none]).1.active_stack.map
          (fun i => (i.name, i.priority)) = [("a", 10)] ∧
      (runOps [SysOp.register "a" 10 (some 1), SysOp.register "b" 10 (some 2),
        SysOp.trigger "a" none, SysOp.trigger "b" none]).1.pending_queue.peek.map
          (fun i => (i.name, i.priority)) = some ("b", 10)) ∧
    ((applyOp (runOps [SysOp.register "a" 10 (some 1),
        SysOp.register "b" 10 (some 2), SysOp.trigger "a" none,
        SysOp.trigger "b" none]).1
        (SysOp.finish 2 CallbackOutcome.ok)).1.active_stack.map
          (fun i => (i.name, i.priority)) = [("b", 10)] ∧
      (applyOp (runOps [SysOp.register "a" 10 (some 1),
        SysOp.register "b" 10 (some 2), SysOp.trigger "a" none,
        SysOp.trigger "b" none]).1
        (SysOp.finish 2 CallbackOutcome.ok)).1.pending_queue.is_empty = true ∧
      SchedEv.admitted ⟨"b", 10, none, none, true, false, 3⟩ ∈
        (applyOp (runOps [SysOp.register "a" 10 (some 1),
          SysOp.register "b" 10 (some 2), SysOp.trigger "a" none,
          SysOp.trigger "b" none]).1
          (SysOp.finish 2 CallbackOutcome.ok)).2) := by
  decide

theorem removeById_append {l1 l2 : List Interrupt} {x : Interrupt}
    (h : ∀ y ∈ l1, y.iid ≠ x.iid) :
    removeById (l1 ++ x :: l2) x.iid = l1 ++ l2 := by
  induction l1 with
  | nil => simp [removeById]
  | cons a l1 ih =>
    simp only [List.cons_append, removeById]
    rw [if_neg (h a (List.mem_cons_self _ _))]
    simp only [List.append_eq]
    rw [ih (fun y hy => h y (List.mem_cons_of_mem _ hy))]

/-- C6: `finish` removes an instance from the active stack by identity
regardless of its position: on a stack `l1 ++ [x] ++ l2` where no earlier
entry shares `x`'s identity, and with an empty pending queue, finishing `x`
yields exactly `l1 ++ l2` (so every other instance, wherever it sits, is
undisturbed) and sets the completion flag; and the handler runner calls
`finish` unconditionally after the callback — `_execute_handler` equals
`_finish_interrupt` for every callback outcome, including a raised
exception. -/
theorem C6_finish_by_identity :
    (∀ (s : InterruptSystem) (x : Interrupt) (l1 l2 : List Interrupt),
      s.active_stack = l1 ++ x :: l2 →
      (∀ y ∈ l1, y.iid ≠ x.iid) →
      s.pending_queue.peekEntry = none →
      finish_interrupt s x =
        ({ s with active_stack := l1 ++ l2, processing_event := true },
         [SchedEv.finished { x with is_active := false },
          SchedEv.observed true])) ∧
    (∀ (s : InterruptSystem) (h : InterruptHandler) (intr : Interrupt)
        (out : CallbackOutcome),
      execute_handler s h intr out = finish_interrupt s intr) := by
  constructor
  · intro s x l1 l2 hst hids hq
    unfold finish_interrupt
    dsimp only
    have h1 : finishCore s x = { s with active_stack := l1 ++ l2 } := by
      unfold finishCore
      rw [hst, removeById_append hids]
    rw [h1]
    have hq' : ({ s with active_stack := l1 ++ l2 } :
        InterruptSystem).pending_queue.peekEntry = none := hq
    rw [pp_empty hq']
  · intro s h intr out
    rfl

/-- C6 witness: stack `[A, B]` with `A` admitted first; finishing `B`
removes exactly `B` and leaves `A` (all fields, at its position). -/
theorem C6_finish_by_identity_witness :
    finish_interrupt
      { interrupts := [], handlers := [], pending_queue := ⟨[], 2⟩,
        active_stack := [⟨"A", 5, none, none, true, false, 0⟩,
          ⟨"B", 7, none, none, true, false, 1⟩],
        global_mask := false, processing_event := false, next_iid := 2 }
      ⟨"B", 7, none, none, true, false, 1⟩ =
      ({ interrupts := [], handlers := [], pending_queue := ⟨[], 2⟩,
         active_stack := [⟨"A", 5, none, none, true, false, 0⟩],
         global_mask := false, processing_event := true, next_iid := 2 },
       [SchedEv.finished ⟨"B", 7, none, none, false, false, 1⟩,
        SchedEv.observed true]) :=
  C6_finish_by_identity.1
    { interrupts := [], handlers := [], pending_queue := ⟨[], 2⟩,
      active_stack := [⟨"A", 5, none, none, true, false, 0⟩,
        ⟨"B", 7, none, none, true, false, 1⟩],
      global_mask := false, processing_event := false, next_iid := 2 }
    ⟨"B", 7, none, none, true, false, 1⟩
    [⟨"A", 5, none, none, true, false, 0⟩] []
    rfl (by decide) (by decide)

theorem process_pending_interrupts (s : InterruptSystem) :
    (process_pending s).1.interrupts = s.interrupts := by
  generalize hn : s.pending_queue.len = n
  induction n using Nat.strong_induction_on generalizing s with
  | _ n ih =>
  cases hm : s.pending_queue.peekEntry with
  | none => rw [pp_empty hm]
  | some m =>
    rcases stack_top_split s m with ⟨c, hc, hp⟩ | hnb
    · rw [pp_blocked hm hc hp]
    · cases hh : dictGet s.handlers m.item.name with
      | some hd => rw [pp_admit_spawn hm hnb hh]
      | none =>
        rw [pp_nohandler hm hnb hh]
        have hlt : (nohandlerNext s m).pending_queue.len < n := by
          rw [← hn]; exact nohandlerNext_len_lt hm
        exact ih _ hlt (nohandlerNext s m) rfl

theorem process_pending_global_mask (s : InterruptSystem) :
    (process_pending s).1.global_mask = s.global_mask := by
  generalize hn : s.pending_queue.len = n
  induction n using Nat.strong_induction_on generalizing s with
  | _ n ih =>
  cases hm : s.pending_queue.peekEntry with
  | none => rw [pp_empty hm]
  | some m =>
    rcases stack_top_split s m with ⟨c, hc, hp⟩ | hnb
    · rw [pp_blocked hm hc hp]
    · cases hh : dictGet s.handlers m.item.name with
      | some hd => rw [pp_admit_spawn hm hnb hh]
      | none =>
        rw [pp_nohandler hm hnb hh]
        have hlt : (nohandlerNext s m).pending_queue.len < n := by
          rw [← hn]; exact nohandlerNext_len_lt hm
        exact ih _ hlt (nohandlerNext s m) rfl

/-- C7: mutating a definition after an instance has been triggered does not
affect that instance: re-registering a name (with any priority and handler
argument) and masking — per-definition or globally — leave the pending
queue and the active stack unchanged; moreover the admission step never
reads the global mask or the definition registry (where the per-definition
masks live), so already-queued instances are admitted and run identically
under any mask configuration. -/
theorem C7_definition_mutation_frame :
    (∀ (s : InterruptSystem) (n : String) (p : Int) (hdl : Option Nat),
      (register_interrupt s n p hdl).1.pending_queue = s.pending_queue ∧
      (register_interrupt s n p hdl).1.active_stack = s.active_stack) ∧
    (∀ (s : InterruptSystem) (n : String) (msk : Bool),
      (mask_interrupt s n msk).1.pending_queue = s.pending_queue ∧
      (mask_interrupt s n msk).1.active_stack = s.active_stack) ∧
    (∀ (s : InterruptSystem) (msk : Bool),
      (mask_all s msk).pending_queue = s.pending_queue ∧
      (mask_all s msk).active_stack = s.active_stack) ∧
    (∀ (s : InterruptSystem) (gm : Bool),
      process_pending { s with global_mask := gm } =
        ({ (process_pending s).1 with global_mask := gm },
         (process_pending s).2)) ∧
    (∀ (s : InterruptSystem) (d : List (String × Interrupt)),
      process_pending { s with interrupts := d } =
        ({ (process_pending s).1 with interrupts := d },
         (process_pending s).2)) := by
  refine ⟨fun s n p hdl => ⟨(register_interrupt_frame s n p hdl).1,
      (register_interrupt_frame s n p hdl).2.1⟩,
    fun s n msk => ⟨(mask_interrupt_frame s n msk).1,
      (mask_interrupt_frame s n msk).2.1⟩,
    fun s msk => ⟨rfl, rfl⟩, ?_, ?_⟩
  · intro s gm
    have t := process_pending_transplant s gm s.interrupts
    rw [t]
    rw [← process_pending_interrupts s]
  · intro s d
    have t := process_pending_transplant s s.global_mask d
    rw [t]
    rw [← process_pending_global_mask s]

/-- C8: the freshly constructed system has an unset completion event even
though its pending queue is empty, and no sequence of non-trigger,
non-completion operations sets it; `wait_for_completion` on such a
never-triggered system therefore finds the flag unset (the underlying
`Event.wait` blocks for the whole timeout and returns `False`). -/
theorem C8_wait_never_triggered :
    initSystem.processing_event = false ∧
    initSystem.pending_queue.is_empty = true ∧
    wait_for_completion initSystem = false ∧
    (∀ ops : List SysOp, (∀ op ∈ ops, passiveOp op = true) →
      wait_for_completion (runOps ops).1 = false) := by
  refine ⟨rfl, rfl, rfl, ?_⟩
  intro ops hpass
  have key : ∀ (l : List SysOp) (acc : InterruptSystem × List SchedEv),
      (∀ op ∈ l, passiveOp op = true) →
      acc.1.processing_event = false →
      (l.foldl runStep acc).1.processing_event = false := by
    intro l
    induction l with
    | nil => intro acc _ h; exact h
    | cons op rest ih =>
      intro acc hl h
      apply ih _ (fun o ho => hl o (List.mem_cons_of_mem _ ho))
      have hop := hl op (List.mem_cons_self _ _)
      cases op with
      | register n p hdl =>
        exact (register_interrupt_frame acc.1 n p hdl).2.2.trans h
      | regHandler n cb =>
        exact (register_handler_frame acc.1 n cb).2.2.trans h
      | maskInterrupt n m =>
        exact (mask_interrupt_frame acc.1 n m).2.2.trans h
      | maskAll m =>
        exact (mask_all_frame acc.1 m).2.2.trans h
      | trigger n d => exact Bool.noConfusion hop
      | finish iid out => exact Bool.noConfusion hop
  exact key ops (initSystem, []) hpass rfl

/-- C8 witness: registrations, a handler registration and a global mask do
not set the completion flag, so waiting still reports `False`. -/
theorem C8_wait_never_triggered_witness :
    wait_for_completion (runOps [SysOp.register "a" 10 (some 1),
      SysOp.maskAll true, SysOp.regHandler "b" 2]).1 = false :=
  C8_wait_never_triggered.2.2.2
    [SysOp.register "a" 10 (some 1), SysOp.maskAll true, SysOp.regHandler "b" 2]
    (by decide)

/-- C9: re-registering an already-known name updates the stored definition's
priority in place and returns that updated definition, and the handler
argument is silently ignored on this path: the handlers registry is left
exactly as it was. -/
theorem C9_reregister_keeps_handler :
    ∀ (s : InterruptSystem) (n : String) (p : Int) (cb : Option Nat)
      (i : Interrupt),
      dictGet s.interrupts n = some i →
      register_interrupt s n p cb =
        ({ s with interrupts :=
            dictSet s.interrupts n { i with priority := p } },
         { i with priority := p }) ∧
      (register_interrupt s n p cb).1.handlers = s.handlers := by
  intro s n p cb i hd
  constructor
  · unfold register_interrupt
    simp only [hd]
  · unfold register_interrupt
    simp only [hd]

/-- C9 witness: re-registering `a` (priority 10 → 99, with a handler
argument 5) returns the updated definition and leaves the previously
registered handler (callback 9) untouched. -/
theorem C9_reregister_keeps_handler_witness :
    (register_interrupt
      { interrupts := [("a", ⟨"a", 10, none, none, false, false, 0⟩)],
        handlers := [("a", ⟨"a", some 9⟩)], pending_queue := ⟨[], 0⟩,
        active_stack := [], global_mask := false, processing_event := false,
        next_iid := 1 }
      "a" 99 (some 5)).1.handlers = [("a", ⟨"a", some 9⟩)] :=
  (C9_reregister_keeps_handler
    { interrupts := [("a", ⟨"a", 10, none, none, false, false, 0⟩)],
      handlers := [("a", ⟨"a", some 9⟩)], pending_queue := ⟨[], 0⟩,
      active_stack := [], global_mask := false, processing_event := false,
      next_iid := 1 }
    "a" 99 (some 5) ⟨"a", 10, none, none, false, false, 0⟩ (by decide)).2

/-- C10: the callback spawned for an admitted instance is the one stored in
the handlers registry under the instance's name at admission time (and the
admission step does not modify that registry), not the handler reference
copied into the instance at trigger time; concretely, `lo` is triggered
while the registry maps `lo` to callback 9, the handler is re-registered to
callback 2 before `lo` is admitted, and the admission spawned by `hi`'s
completion runs callback 2 — while the instance's own copied handler field
is `none` throughout. -/
theorem C10_handler_lookup_at_admission :
    (∀ (s : InterruptSystem) (h : InterruptHandler) (i : Interrupt),
      SchedEv.spawned h i ∈ (process_pending s).2 →
      dictGet s.handlers i.name = some h ∧
      (process_pending s).1.handlers = s.handlers) ∧
    SchedEv.spawned ⟨"lo", some 2⟩ ⟨"lo", 5, none, none, true, false, 3⟩ ∈
      (runOps [SysOp.register "hi" 10 (some 1), SysOp.register "lo" 5 (some 9),
        SysOp.trigger "hi" none, SysOp.trigger "lo" none,
        SysOp.regHandler "lo" 2, SysOp.finish 2 CallbackOutcome.ok]).2 := by
  constructor
  · intro s h i hsp
    exact ⟨spawned_handler_reg s h i hsp, process_pending_handlers s⟩
  · decide

/-- C10 witness: on a one-entry queue whose instance `a` carries no copied
handler, the admission step spawns exactly the registry's handler for `a`
(callback 7). -/
theorem C10_handler_lookup_at_admission_witness :
    dictGet
      ({ interrupts := [], handlers := [("a", ⟨"a", some 7⟩)],
         pending_queue := ⟨[⟨-10, 0, ⟨"a", 10, none, none, false, false, 1⟩⟩], 1⟩,
         active_stack := [], global_mask := false, processing_event := false,
         next_iid := 2 } : InterruptSystem).handlers "a" = some ⟨"a", some 7⟩ :=
  (C10_handler_lookup_at_admission.1
    { interrupts := [], handlers := [("a", ⟨"a", some 7⟩)],
      pending_queue := ⟨[⟨-10, 0, ⟨"a", 10, none, none, false, false, 1⟩⟩], 1⟩,
      active_stack := [], global_mask := false, processing_event := false,
      next_iid := 2 }
    ⟨"a", some 7⟩ ⟨"a", 10, none, none, true, false, 1⟩ (by decide)).1

end NestedInterrupts
